import Mathlib

set_option maxRecDepth 10000

/-!
# Verification of the power-plant production planner

A shallow embedding of `src/Solution/main.py` (Power Plant Production
Planner). Real-valued quantities are modelled by rationals; the
`float('inf')` sentinel returned for an unrecognized plant type is
modelled by `Cost.inf`; Python's stable in-place list sort by key
`(cost, -actual_pmax)` is modelled by `List.insertionSort` with the
corresponding total preorder (the stable sort under a fixed total
preorder is unique).
-/

namespace PowerPlan

/-- Fuel costs and wind percentage (class `Fuels` of the source). -/
structure Fuels where
  gas_euro_mwh : ℚ
  kerosine_euro_mwh : ℚ
  co2_euro_ton : ℚ
  wind_percent : ℚ
deriving DecidableEq

/-- Power plant specification (class `PowerPlant` of the source). -/
structure PowerPlant where
  name : String
  type : String
  efficiency : ℚ
  pmin : ℚ
  pmax : ℚ
deriving DecidableEq

/-- Input payload (class `ProductionPlanRequest` of the source). -/
structure ProductionPlanRequest where
  load : ℚ
  fuels : Fuels
  powerplants : List PowerPlant
deriving DecidableEq

/-- Output element (class `PowerPlantOutput` of the source). -/
structure PowerPlantOutput where
  name : String
  p : ℚ
deriving DecidableEq

/-- A float cost value: either a finite (rational) value or the
`float('inf')` sentinel. -/
inductive Cost where
  | val (q : ℚ)
  | inf
deriving DecidableEq

/-- The strict order on `Cost` values matching IEEE comparison of a
finite float with `inf` (`inf` is greater than every finite value and
not less than itself). -/
def Cost.lt : Cost → Cost → Bool
  | Cost.val a, Cost.val b => decide (a < b)
  | Cost.val _, Cost.inf => true
  | Cost.inf, _ => false

/-- `calculate_cost_per_mwh`: cost per MWh by plant type; `Cost.inf`
models the `float('inf')` fall-through for an unrecognized type. -/
def calculate_cost_per_mwh (plant : PowerPlant) (fuels : Fuels) : Cost :=
  if plant.type = "windturbine" then
    Cost.val 0
  else if plant.type = "gasfired" then
    Cost.val (fuels.gas_euro_mwh / plant.efficiency
       + (3/10 * fuels.co2_euro_ton) / plant.efficiency)
  else if plant.type = "turbojet" then
    Cost.val (fuels.kerosine_euro_mwh / plant.efficiency)
  else
    Cost.inf

/-- `calculate_actual_pmax`: wind turbines are derated by the wind
percentage, everything else keeps its `pmax`. -/
def calculate_actual_pmax (plant : PowerPlant) (fuels : Fuels) : ℚ :=
  if plant.type = "windturbine" then
    plant.pmax * (fuels.wind_percent / 100)
  else
    plant.pmax

/-- One element of the mutable working list `plants_data` built by
`calculate_production_plan`. -/
structure Entry where
  plant : PowerPlant
  cost : Cost
  actual_pmax : ℚ
  power : ℚ
deriving DecidableEq

/-- Step 1 of `calculate_production_plan`: the working list, in input
order, with `power` initialized to `0`. -/
def build_entries (fuels : Fuels) (powerplants : List PowerPlant) : List Entry :=
  powerplants.map fun plant =>
    { plant := plant
      cost := calculate_cost_per_mwh plant fuels
      actual_pmax := calculate_actual_pmax plant fuels
      power := 0 }

/-- The total preorder underlying the sort key
`(x['cost'], -x['actual_pmax'])`: ascending cost, ties broken by
descending effective capacity. -/
def meritLE (a b : Entry) : Bool :=
  Cost.lt a.cost b.cost
    || (decide (a.cost = b.cost) && decide (b.actual_pmax ≤ a.actual_pmax))

/-- `meritLE` as a relation, for use with `List.insertionSort`. -/
def meritR (a b : Entry) : Prop :=
  meritLE a b = true

instance : DecidableRel meritR :=
  fun a b => inferInstanceAs (Decidable (meritLE a b = true))

/-- Step 2 of `calculate_production_plan`: the working list sorted
stably into merit order (`plants_data.sort(key=...)`). Python's
`list.sort` is a stable sort by the key's total preorder; the stable
sort of a list under a total preorder is unique, so it is modelled by
the (stable) insertion sort under the same preorder. -/
def merit_sorted (fuels : Fuels) (powerplants : List PowerPlant) : List Entry :=
  List.insertionSort meritR (build_entries fuels powerplants)

/-- Step 3 of `calculate_production_plan`: the greedy allocation loop.
Returns the final `remaining_load` together with the updated list; a
`break` leaves the unvisited suffix untouched. -/
def allocate : ℚ → List Entry → ℚ × List Entry
  | r, [] => (r, [])
  | r, e :: rest =>
    if r ≤ 1/10 then
      (r, e :: rest)
    else if e.actual_pmax < 1/10 then
      let p := allocate r rest
      (p.1, e :: p.2)
    else if e.plant.pmin ≤ r then
      let amt := min r e.actual_pmax
      let p := allocate (r - amt) rest
      (p.1, { e with power := amt } :: p.2)
    else if 0 < r ∧ e.plant.pmin = 0 then
      let amt := min r e.actual_pmax
      let p := allocate (r - amt) rest
      (p.1, { e with power := amt } :: p.2)
    else if 0 < r ∧ e.plant.pmin ≤ e.actual_pmax then
      let p := allocate (r - e.plant.pmin) rest
      (p.1, { e with power := e.plant.pmin } :: p.2)
    else
      let p := allocate r rest
      (p.1, e :: p.2)

/-- Step 4 of `calculate_production_plan`: the overproduction corrector,
acting on the REVERSED working list (`for plant_data in
reversed(plants_data)`); a `break` leaves the rest of the walk
untouched. -/
def correct : ℚ → List Entry → ℚ × List Entry
  | r, [] => (r, [])
  | r, e :: rest =>
    if 0 < e.power then
      let excess := |r|
      if e.plant.pmin ≤ e.power - excess then
        (0, { e with power := e.power - excess } :: rest)
      else if e.plant.pmin = 0 then
        let reduction := min e.power excess
        let r2 := r + reduction
        let e2 := { e with power := e.power - reduction }
        if |r2| < 1/10 then
          (r2, e2 :: rest)
        else
          let p := correct r2 rest
          (p.1, e2 :: p.2)
      else
        let p := correct r rest
        (p.1, e :: p.2)
    else
      let p := correct r rest
      (p.1, e :: p.2)

/-- Rounding to the nearest integer with ties to even, the convention of
Python's built-in `round` applied to an exactly representable value. -/
def roundHalfEven (q : ℚ) : ℤ :=
  if q - ⌊q⌋ < 1/2 then ⌊q⌋
  else if 1/2 < q - ⌊q⌋ then ⌊q⌋ + 1
  else if ⌊q⌋ % 2 = 0 then ⌊q⌋ else ⌊q⌋ + 1

/-- `round(x, 1)`: rounding to the nearest multiple of `0.1`, ties to
even. -/
def round1 (q : ℚ) : ℚ :=
  ((roundHalfEven (10 * q) : ℤ) : ℚ) / 10

/-- Steps 2-4 of `calculate_production_plan`: the sorted working list
after allocation and (when triggered) correction, together with the
final `remaining_load`. -/
def dispatch (load : ℚ) (fuels : Fuels) (powerplants : List PowerPlant) :
    ℚ × List Entry :=
  let a := allocate load (merit_sorted fuels powerplants)
  if a.1 < -(1/10) then
    let c := correct a.1 a.2.reverse
    (c.1, c.2.reverse)
  else
    a

/-- `calculate_production_plan`: the full pipeline. Step 5 emits one
output per entry of the (sorted, mutated-in-place) working list, with
`power` rounded to `0.1`. -/
def calculate_production_plan (load : ℚ) (fuels : Fuels)
    (powerplants : List PowerPlant) : List PowerPlantOutput :=
  (dispatch load fuels powerplants).2.map fun e =>
    { name := e.plant.name, p := round1 e.power }

/-- The outcome of an endpoint call: a successful JSON response, or an
`HTTPException` with the given status code. -/
inductive ApiResult where
  | ok (plan : List PowerPlantOutput)
  | httpError (status_code : Nat)
deriving DecidableEq

/-- The body of the `try:` block of the `/productionplan` endpoint: it
raises `HTTPException(status_code=400)` when the rounded total deviates
from the load by more than `0.1`, modelled as `ApiResult.httpError 400`. -/
def production_plan_body (req : ProductionPlanRequest) : ApiResult :=
  let plan := calculate_production_plan req.load req.fuels req.powerplants
  let total := (plan.map PowerPlantOutput.p).sum
  if 1/10 < |total - req.load| then
    ApiResult.httpError 400
  else
    ApiResult.ok plan

/-- The `/productionplan` endpoint `production_plan`. The blanket
`except Exception as e:` catches EVERY exception raised inside the
`try:` block — including the `HTTPException(status_code=400)` raised for
an unmatched load, since FastAPI's `HTTPException` subclasses
`Exception` — and re-raises it as `HTTPException(status_code=500)`. -/
def production_plan (req : ProductionPlanRequest) : ApiResult :=
  match production_plan_body req with
  | ApiResult.ok plan => ApiResult.ok plan
  | ApiResult.httpError _ => ApiResult.httpError 500

/-! ### Derived notions used by the statements -/

/-- The aggregate effective capacity of the units the allocator can
actually use (those whose effective capacity passes the `0.1`
skip-threshold). -/
def usableCap (l : List Entry) : ℚ :=
  ((l.filter fun e => decide ((1 : ℚ)/10 ≤ e.actual_pmax)).map Entry.actual_pmax).sum

/-- A formalization of the spec's "feasible scenario": nonnegative load,
no minimum-output floors at all (hence no conflicting floors), and
enough aggregate effective capacity among usable units to cover the
load. -/
def Feasible (load : ℚ) (fuels : Fuels) (powerplants : List PowerPlant) : Prop :=
  0 ≤ load ∧ (∀ p ∈ powerplants, p.pmin = 0) ∧
    load ≤ usableCap (build_entries fuels powerplants)

/-! ### Concrete fixtures (payloads of the challenge, §8 scenarios) -/

/-- The fuel prices of spec §8 scenario 1. -/
def fuelsA : Fuels := ⟨134/10, 508/10, 20, 60⟩

/-- A wind unit (scenario 1). -/
def pWindA : PowerPlant := ⟨"wind", "windturbine", 1, 0, 150⟩

/-- A gas unit (scenario 1). -/
def pGasA : PowerPlant := ⟨"gas", "gasfired", 53/100, 100, 460⟩

/-- A turbojet unit (scenario 1). -/
def pTjA : PowerPlant := ⟨"tj", "turbojet", 3/10, 0, 16⟩

/-- A unit with a type outside the closed set. -/
def pOtherA : PowerPlant := ⟨"other", "nuclear", 1, 0, 100⟩

/-- Flat fuel prices used by the small counterexamples. -/
def fuelsB : Fuels := ⟨10, 20, 5, 60⟩

/-- The single minimum-bound gas unit of spec §8 scenario 2. -/
def pGasB : PowerPlant := ⟨"g", "gasfired", 1/2, 60, 100⟩

/-- Spec §8 scenario 2: load 50 against a single unit with minimum
output 60 — infeasible. -/
def reqInfeasible : ProductionPlanRequest := ⟨50, fuelsB, [pGasB]⟩

/-- Fuel prices with full wind availability. -/
def fuelsC : Fuels := ⟨10, 20, 5, 100⟩

/-- A quarter-MW wind unit. -/
def pW1 : PowerPlant := ⟨"w1", "windturbine", 1, 0, 1/4⟩

/-- A quarter-MW wind unit. -/
def pW2 : PowerPlant := ⟨"w2", "windturbine", 1, 0, 1/4⟩

/-- A quarter-MW wind unit. -/
def pW3 : PowerPlant := ⟨"w3", "windturbine", 1, 0, 1/4⟩

/-- A gas unit with fractional minimum output `30.04`, maximum `31`. -/
def pGasC : PowerPlant := ⟨"g", "gasfired", 1/2, 751/25, 31⟩

/-- Load `29.92` against `pGasC`: the allocator force-commits `30.04`,
the corrector cannot retract below the floor, yet rounding masks the
residual `-0.12`. -/
def reqMasked : ProductionPlanRequest := ⟨748/25, fuelsB, [pGasC]⟩

/-- The dispatch entry produced for `pWindA` under `fuelsA` with 20 MW
allocated. -/
def eWindA : Entry := ⟨pWindA, Cost.val 0, 90, 20⟩

/-- A gas unit with minimum output `1.5` and maximum `2`. -/
def pFloor : PowerPlant := ⟨"f", "gasfired", 1/2, 3/2, 2⟩

/-- An entry with effective capacity below the `0.1` threshold. -/
def eCap0 : Entry := ⟨pWindA, Cost.val 0, 0, 0⟩

/-- A flexible (zero-minimum) entry with capacity `2`. -/
def eFlex : Entry := ⟨pWindA, Cost.val 0, 2, 0⟩

/-- A minimum-bound entry whose floor `1.5` fits under its capacity. -/
def eFloor : Entry := ⟨pFloor, Cost.val 23, 2, 0⟩

/-- A minimum-bound entry whose capacity `1` is below its floor. -/
def eTight : Entry := ⟨pFloor, Cost.val 23, 1, 0⟩

/-- An entry holding no allocation. -/
def eZero : Entry := ⟨pWindA, Cost.val 0, 90, 0⟩

/-- A flexible entry holding a small allocation of `0.5`. -/
def eHalf : Entry := ⟨pWindA, Cost.val 0, 90, 1/2⟩

/-- A force-committed entry sitting at its own floor `1.5`. -/
def eFloorPow : Entry := ⟨pFloor, Cost.val 23, 2, 3/2⟩

/-- A satisfiable request: load 30 against the scenario-1 wind unit. -/
def reqWind : ProductionPlanRequest := ⟨30, fuelsA, [pWindA]⟩

/-- The working-list entry built for `pGasA` under `fuelsA`. -/
def eGasB : Entry := ⟨pGasA, calculate_cost_per_mwh pGasA fuelsA, 460, 0⟩

/-- An entry with cost 5 and the larger capacity 10. -/
def eHi : Entry := ⟨pGasA, Cost.val 5, 10, 0⟩

/-- An entry with cost 5 and the smaller capacity 4. -/
def eLo : Entry := ⟨pGasA, Cost.val 5, 4, 0⟩

/-! ### Properties of the merit comparator -/

theorem Cost.lt_val_iff {a b : ℚ} : Cost.lt (Cost.val a) (Cost.val b) = true ↔ a < b := by
  simp [Cost.lt]

theorem Cost.lt_trans {a b c : Cost} (hab : Cost.lt a b = true)
    (hbc : Cost.lt b c = true) : Cost.lt a c = true := by
  cases a <;> cases b <;> cases c <;>
    simp_all [Cost.lt]
  linarith

theorem Cost.eq_of_not_lt {a b : Cost} (hab : ¬ Cost.lt a b = true)
    (hba : ¬ Cost.lt b a = true) : a = b := by
  cases a <;> cases b <;> simp_all [Cost.lt]
  linarith

theorem Cost.lt_irrefl (a : Cost) : Cost.lt a a = false := by
  cases a <;> simp [Cost.lt]

theorem meritR_iff (a b : Entry) :
    meritR a b ↔
      Cost.lt a.cost b.cost = true ∨
        (a.cost = b.cost ∧ b.actual_pmax ≤ a.actual_pmax) := by
  simp [meritR, meritLE]

theorem meritR_total (a b : Entry) : meritR a b ∨ meritR b a := by
  rw [meritR_iff, meritR_iff]
  by_cases hab : Cost.lt a.cost b.cost = true
  · exact Or.inl (Or.inl hab)
  · by_cases hba : Cost.lt b.cost a.cost = true
    · exact Or.inr (Or.inl hba)
    · have heq : a.cost = b.cost := Cost.eq_of_not_lt hab hba
      rcases le_total b.actual_pmax a.actual_pmax with h | h
      · exact Or.inl (Or.inr ⟨heq, h⟩)
      · exact Or.inr (Or.inr ⟨heq.symm, h⟩)

theorem meritR_trans (a b c : Entry) (hab : meritR a b) (hbc : meritR b c) :
    meritR a c := by
  rw [meritR_iff] at hab hbc ⊢
  rcases hab with hab | ⟨hab, hab'⟩
  · rcases hbc with hbc | ⟨hbc, _⟩
    · exact Or.inl (Cost.lt_trans hab hbc)
    · exact Or.inl (hbc ▸ hab)
  · rcases hbc with hbc | ⟨hbc, hbc'⟩
    · exact Or.inl (hab ▸ hbc)
    · exact Or.inr ⟨hab.trans hbc, hbc'.trans hab'⟩

instance : IsTotal Entry meritR := ⟨meritR_total⟩

instance : IsTrans Entry meritR := ⟨meritR_trans⟩

/-! ### Claim theorems -/

/-- C6: the marginal cost model returns `0` for a wind-powered unit,
`gas price / efficiency + 0.3 × carbon price / efficiency` for a
gas-fired unit, `kerosine price / efficiency` for a turbojet, and the
infinite sentinel for any unrecognized type; the emission factor is the
fixed constant `0.3 = 3/10`. -/
theorem cost_model_spec (plant : PowerPlant) (fuels : Fuels) :
    (plant.type = "windturbine" → calculate_cost_per_mwh plant fuels = Cost.val 0) ∧
    (plant.type = "gasfired" →
      calculate_cost_per_mwh plant fuels =
        Cost.val (fuels.gas_euro_mwh / plant.efficiency
          + 3/10 * fuels.co2_euro_ton / plant.efficiency)) ∧
    (plant.type = "turbojet" →
      calculate_cost_per_mwh plant fuels =
        Cost.val (fuels.kerosine_euro_mwh / plant.efficiency)) ∧
    (plant.type ≠ "windturbine" → plant.type ≠ "gasfired" →
      plant.type ≠ "turbojet" →
      calculate_cost_per_mwh plant fuels = Cost.inf) := by
  refine ⟨?_, ?_, ?_, ?_⟩
  · intro h
    simp [calculate_cost_per_mwh, h]
  · intro h
    simp [calculate_cost_per_mwh, h]
  · intro h
    simp [calculate_cost_per_mwh, h]
  · intro h1 h2 h3
    simp [calculate_cost_per_mwh, h1, h2, h3]

/-- Witness for C6 at the four concrete units of the fixtures. -/
theorem cost_model_spec_witness :
    calculate_cost_per_mwh pWindA fuelsA = Cost.val 0 ∧
    calculate_cost_per_mwh pGasA fuelsA =
      Cost.val (fuelsA.gas_euro_mwh / pGasA.efficiency
        + 3/10 * fuelsA.co2_euro_ton / pGasA.efficiency) ∧
    calculate_cost_per_mwh pTjA fuelsA =
      Cost.val (fuelsA.kerosine_euro_mwh / pTjA.efficiency) ∧
    calculate_cost_per_mwh pOtherA fuelsA = Cost.inf := by
  refine ⟨?_, ?_, ?_, ?_⟩
  · exact (cost_model_spec pWindA fuelsA).1 rfl
  · exact (cost_model_spec pGasA fuelsA).2.1 rfl
  · exact (cost_model_spec pTjA fuelsA).2.2.1 rfl
  · exact (cost_model_spec pOtherA fuelsA).2.2.2 (by decide) (by decide) (by decide)

/-- C7: the effective capacity model derates a wind-powered unit by the
wind percentage and leaves every other type's maximum output
unchanged. -/
theorem capacity_model_spec (plant : PowerPlant) (fuels : Fuels) :
    (plant.type = "windturbine" →
      calculate_actual_pmax plant fuels = plant.pmax * (fuels.wind_percent / 100)) ∧
    (plant.type ≠ "windturbine" →
      calculate_actual_pmax plant fuels = plant.pmax) := by
  constructor
  · intro h
    simp [calculate_actual_pmax, h]
  · intro h
    simp [calculate_actual_pmax, h]

/-- Witness for C7 at a wind unit and a gas unit. -/
theorem capacity_model_spec_witness :
    calculate_actual_pmax pWindA fuelsA = pWindA.pmax * (fuelsA.wind_percent / 100) ∧
    calculate_actual_pmax pGasA fuelsA = pGasA.pmax := by
  exact ⟨(capacity_model_spec pWindA fuelsA).1 rfl,
    (capacity_model_spec pGasA fuelsA).2 (by decide)⟩

/-- C10: the formatter's rounding follows the ties-to-even convention of
Python's built-in `round` at one decimal: a value exactly halfway
between two adjacent multiples of `0.1` — i.e. of the form
`(2j+1)/20` — is sent to the neighbouring multiple of `0.1` whose
tenths digit is even (namely `j/10` when `j` is even, `(j+1)/10` when
`j` is odd), at distance exactly `1/20`. -/
theorem round1_ties_to_even (j : ℤ) :
    round1 ((2 * (j : ℚ) + 1) / 20) =
      (if j % 2 = 0 then (j : ℚ) / 10 else ((j : ℚ) + 1) / 10) ∧
    |(2 * (j : ℚ) + 1) / 20 - round1 ((2 * (j : ℚ) + 1) / 20)| = 1/20 := by
  have h10 : 10 * ((2 * (j : ℚ) + 1) / 20) = (j : ℚ) + 1/2 := by ring
  have hfloor : ⌊(j : ℚ) + 1/2⌋ = j := by
    rw [add_comm, Int.floor_add_int]
    norm_num
  have hrhe : roundHalfEven (10 * ((2 * (j : ℚ) + 1) / 20)) =
      (if j % 2 = 0 then j else j + 1) := by
    rw [roundHalfEven, h10, hfloor]
    have hfrac : (j : ℚ) + 1/2 - (j : ℤ) = 1/2 := by ring
    rw [hfrac]
    norm_num
  have hmain : round1 ((2 * (j : ℚ) + 1) / 20) =
      (if j % 2 = 0 then (j : ℚ) / 10 else ((j : ℚ) + 1) / 10) := by
    rw [round1, hrhe]
    by_cases hj : j % 2 = 0
    · simp [hj]
    · simp [hj]
  refine ⟨hmain, ?_⟩
  rw [hmain]
  by_cases hj : j % 2 = 0
  · rw [if_pos hj]
    have : (2 * (j : ℚ) + 1) / 20 - (j : ℚ) / 10 = 1/20 := by ring
    rw [this]
    norm_num
  · rw [if_neg hj]
    have : (2 * (j : ℚ) + 1) / 20 - ((j : ℚ) + 1) / 10 = -(1/20) := by ring
    rw [this]
    norm_num

/-- C4: one step of the greedy allocation loop, with the case analysis
of the claim: stop when remaining load is within tolerance; skip a unit
whose effective capacity is below `0.1`; allocate
`min(remaining, capacity)` when remaining load reaches the floor (in
particular when the floor is `0`); force-commit the full minimum output
when `0 < remaining < minimum ≤ capacity`; otherwise skip. Each
equation recurses only on the tail, so the loop is a single forward
pass and no entry is revisited. -/
theorem greedy_allocator_spec (r : ℚ) (e : Entry) (rest : List Entry) :
    (r ≤ 1/10 → allocate r (e :: rest) = (r, e :: rest)) ∧
    (1/10 < r → e.actual_pmax < 1/10 →
      allocate r (e :: rest) = ((allocate r rest).1, e :: (allocate r rest).2)) ∧
    (1/10 < r → 1/10 ≤ e.actual_pmax →
      (e.plant.pmin ≤ r ∨ (0 < r ∧ e.plant.pmin = 0)) →
      allocate r (e :: rest) =
        ((allocate (r - min r e.actual_pmax) rest).1,
          { e with power := min r e.actual_pmax }
            :: (allocate (r - min r e.actual_pmax) rest).2)) ∧
    (1/10 < r → 1/10 ≤ e.actual_pmax → 0 < r → r < e.plant.pmin →
      e.plant.pmin ≤ e.actual_pmax →
      allocate r (e :: rest) =
        ((allocate (r - e.plant.pmin) rest).1,
          { e with power := e.plant.pmin }
            :: (allocate (r - e.plant.pmin) rest).2)) ∧
    (1/10 < r → 1/10 ≤ e.actual_pmax → r < e.plant.pmin →
      e.actual_pmax < e.plant.pmin →
      allocate r (e :: rest) = ((allocate r rest).1, e :: (allocate r rest).2)) := by
  refine ⟨?_, ?_, ?_, ?_, ?_⟩
  · intro h1
    simp only [allocate]
    rw [if_pos h1]
  · intro h1 h2
    simp only [allocate]
    rw [if_neg (not_le.2 h1), if_pos h2]
  · intro h1 h2 h3
    have hple : e.plant.pmin ≤ r := by
      rcases h3 with h3 | ⟨h0, hz⟩
      · exact h3
      · rw [hz]; exact le_of_lt h0
    simp only [allocate]
    rw [if_neg (not_le.2 h1), if_neg (not_lt.2 h2), if_pos hple]
  · intro h1 h2 h0 h4 h5
    simp only [allocate]
    rw [if_neg (not_le.2 h1), if_neg (not_lt.2 h2), if_neg (not_le.2 h4),
      if_neg (by rintro ⟨-, hz⟩; rw [hz] at h4; linarith), if_pos ⟨h0, h5⟩]
  · intro h1 h2 h3 h4
    simp only [allocate]
    rw [if_neg (not_le.2 h1), if_neg (not_lt.2 h2), if_neg (not_le.2 h3),
      if_neg (by rintro ⟨-, hz⟩; rw [hz] at h3; linarith),
      if_neg (by rintro ⟨-, hc⟩; linarith)]

/-- Witness for C4: the five allocator cases at concrete entries. -/
theorem greedy_allocator_spec_witness :
    allocate (1/20) [eFlex] = (1/20, [eFlex]) ∧
    allocate 1 [eCap0] = ((allocate 1 []).1, eCap0 :: (allocate 1 []).2) ∧
    allocate 1 [eFlex] =
      ((allocate (1 - min 1 eFlex.actual_pmax) []).1,
        { eFlex with power := min 1 eFlex.actual_pmax }
          :: (allocate (1 - min 1 eFlex.actual_pmax) []).2) ∧
    allocate 1 [eFloor] =
      ((allocate (1 - eFloor.plant.pmin) []).1,
        { eFloor with power := eFloor.plant.pmin }
          :: (allocate (1 - eFloor.plant.pmin) []).2) ∧
    allocate 1 [eTight] = ((allocate 1 []).1, eTight :: (allocate 1 []).2) := by
  refine ⟨?_, ?_, ?_, ?_, ?_⟩
  · exact (greedy_allocator_spec (1/20) eFlex []).1 (by norm_num)
  · exact (greedy_allocator_spec 1 eCap0 []).2.1 (by norm_num)
      (by with_unfolding_all decide)
  · exact (greedy_allocator_spec 1 eFlex []).2.2.1 (by norm_num)
      (by with_unfolding_all decide) (Or.inl (by with_unfolding_all decide))
  · exact (greedy_allocator_spec 1 eFloor []).2.2.2.1 (by norm_num)
      (by with_unfolding_all decide) (by norm_num)
      (by with_unfolding_all decide) (by with_unfolding_all decide)
  · exact (greedy_allocator_spec 1 eTight []).2.2.2.2 (by norm_num)
      (by with_unfolding_all decide) (by with_unfolding_all decide)
      (by with_unfolding_all decide)

/-- A successful endpoint response implies the rounded total matched the
load within tolerance: the only path to `ok` is the `else` branch of
the deviation check. -/
theorem plan_ok_within_tolerance (req : ProductionPlanRequest)
    (plan : List PowerPlantOutput)
    (h : production_plan req = ApiResult.ok plan) :
    |((plan.map PowerPlantOutput.p).sum) - req.load| ≤ 1/10 := by
  unfold production_plan at h
  split at h
  next p hp =>
    injection h with h'
    subst h'
    unfold production_plan_body at hp
    by_cases hc : 1/10 <
        |(((calculate_production_plan req.load req.fuels
            req.powerplants).map PowerPlantOutput.p).sum) - req.load|
    · rw [if_pos hc] at hp
      exact absurd hp (by simp)
    · rw [if_neg hc] at hp
      injection hp with hp'
      rw [← hp']
      exact not_lt.1 hc
  next n hn =>
    exact absurd h (by simp)

/-- C3 (code bug): at the infeasible scenario-2 request the `try:` body
raises `HTTPException(400)`, but the endpoint's blanket
`except Exception` catches it and re-raises it as a 500 server error,
so infeasibility is conflated with unexpected internal failures. -/
theorem infeasible_conflated_with_server_error :
    production_plan_body reqInfeasible = ApiResult.httpError 400 ∧
    production_plan reqInfeasible = ApiResult.httpError 500 := by
  constructor
  · with_unfolding_all decide
  · with_unfolding_all decide

/-- C5 counterexample: at `reqMasked` (load `29.92`, one gas unit with
floor `30.04`) the corrector terminates with remaining load `-0.12`,
beyond tolerance, yet no infeasibility condition reaches the caller:
rounding the forced allocation `30.04` down to `30.0` brings the
rounded total within `0.1` of the load and the endpoint answers `ok`. -/
theorem corrector_residual_masked :
    (dispatch (748/25) fuelsB [pGasC]).1 < -(1/10) ∧
    production_plan reqMasked = ApiResult.ok [⟨"g", 30⟩] := by
  constructor
  · with_unfolding_all decide
  · with_unfolding_all decide

/-- C5 (amended): the corrector runs only when remaining load is below
`-0.1`; one step of its reverse walk skips entries without allocation,
retracts the full excess from the first entry that stays at or above
its floor (zeroing the remaining load and stopping), partially or
fully reduces zero-floor entries (stopping once the residual is within
tolerance), and leaves floor-bound entries untouched; a residual
beyond tolerance reaches the caller as an infeasibility condition only
through the rounded-total check: a successful response implies the
rounded total is within `0.1` of the load. -/
theorem overproduction_corrector_spec :
    (∀ (load : ℚ) (fuels : Fuels) (ps : List PowerPlant),
      ¬ (allocate load (merit_sorted fuels ps)).1 < -(1/10) →
      dispatch load fuels ps = allocate load (merit_sorted fuels ps)) ∧
    (∀ (r : ℚ) (e : Entry) (rest : List Entry),
      (¬ 0 < e.power →
        correct r (e :: rest) = ((correct r rest).1, e :: (correct r rest).2)) ∧
      (0 < e.power → e.plant.pmin ≤ e.power - |r| →
        correct r (e :: rest) = (0, { e with power := e.power - |r| } :: rest)) ∧
      (0 < e.power → e.power - |r| < e.plant.pmin → e.plant.pmin = 0 →
        abs (r + min e.power |r|) < 1/10 →
        correct r (e :: rest) =
          (r + min e.power |r|,
            { e with power := e.power - min e.power |r| } :: rest)) ∧
      (0 < e.power → e.power - |r| < e.plant.pmin → e.plant.pmin = 0 →
        ¬ abs (r + min e.power |r|) < 1/10 →
        correct r (e :: rest) =
          ((correct (r + min e.power |r|) rest).1,
            { e with power := e.power - min e.power |r| }
              :: (correct (r + min e.power |r|) rest).2)) ∧
      (0 < e.power → e.power - |r| < e.plant.pmin → e.plant.pmin ≠ 0 →
        correct r (e :: rest) = ((correct r rest).1, e :: (correct r rest).2))) ∧
    (∀ (req : ProductionPlanRequest) (plan : List PowerPlantOutput),
      production_plan req = ApiResult.ok plan →
      |((plan.map PowerPlantOutput.p).sum) - req.load| ≤ 1/10) := by
  refine ⟨?_, ?_, ?_⟩
  · intro load fuels ps h
    simp only [dispatch]
    rw [if_neg h]
  · intro r e rest
    refine ⟨?_, ?_, ?_, ?_, ?_⟩
    · intro h1
      simp only [correct]
      rw [if_neg h1]
    · intro h1 h2
      simp only [correct]
      rw [if_pos h1, if_pos h2]
    · intro h1 h2 h3 h4
      simp only [correct]
      rw [if_pos h1, if_neg (not_le.2 h2), if_pos h3, if_pos h4]
    · intro h1 h2 h3 h4
      simp only [correct]
      rw [if_pos h1, if_neg (not_le.2 h2), if_pos h3, if_neg h4]
    · intro h1 h2 h3
      simp only [correct]
      rw [if_pos h1, if_neg (not_le.2 h2), if_neg h3]
  · exact plan_ok_within_tolerance

/-- Witness for C5: the trigger guard, the five corrector cases and the
propagation conjunct at concrete inputs. -/
theorem overproduction_corrector_spec_witness :
    (dispatch 30 fuelsA [pWindA] = allocate 30 (merit_sorted fuelsA [pWindA])) ∧
    (correct (-1) [eZero] = ((correct (-1) []).1, eZero :: (correct (-1) []).2)) ∧
    (correct (-1) [eWindA] =
      (0, [{ eWindA with power := eWindA.power - |(-1 : ℚ)| }])) ∧
    (correct (-11/20) [eHalf] =
      (-11/20 + min eHalf.power |(-11/20 : ℚ)|,
        [{ eHalf with power := eHalf.power - min eHalf.power |(-11/20 : ℚ)| }])) ∧
    (correct (-1) [eHalf] =
      ((correct (-1 + min eHalf.power |(-1 : ℚ)|) []).1,
        { eHalf with power := eHalf.power - min eHalf.power |(-1 : ℚ)| }
          :: (correct (-1 + min eHalf.power |(-1 : ℚ)|) []).2)) ∧
    (correct (-1) [eFloorPow] =
      ((correct (-1) []).1, eFloorPow :: (correct (-1) []).2)) ∧
    |(([⟨"wind", 30⟩] : List PowerPlantOutput).map PowerPlantOutput.p).sum -
        reqWind.load| ≤ 1/10 := by
  refine ⟨?_, ?_, ?_, ?_, ?_, ?_, ?_⟩
  · exact overproduction_corrector_spec.1 30 fuelsA [pWindA]
      (by with_unfolding_all decide)
  · exact (overproduction_corrector_spec.2.1 (-1) eZero []).1
      (by with_unfolding_all decide)
  · exact (overproduction_corrector_spec.2.1 (-1) eWindA []).2.1
      (by with_unfolding_all decide) (by with_unfolding_all decide)
  · exact (overproduction_corrector_spec.2.1 (-11/20) eHalf []).2.2.1
      (by with_unfolding_all decide) (by with_unfolding_all decide)
      (by with_unfolding_all decide) (by with_unfolding_all decide)
  · exact (overproduction_corrector_spec.2.1 (-1) eHalf []).2.2.2.1
      (by with_unfolding_all decide) (by with_unfolding_all decide)
      (by with_unfolding_all decide) (by with_unfolding_all decide)
  · exact (overproduction_corrector_spec.2.1 (-1) eFloorPow []).2.2.2.2
      (by with_unfolding_all decide) (by with_unfolding_all decide)
      (by with_unfolding_all decide)
  · exact overproduction_corrector_spec.2.2 reqWind [⟨"wind", 30⟩]
      (by with_unfolding_all decide)

/-- The allocation pass rewrites only the `power` fields: the underlying
plants, in order, are unchanged. -/
theorem allocate_map_plant (r : ℚ) (l : List Entry) :
    (allocate r l).2.map Entry.plant = l.map Entry.plant := by
  induction l generalizing r with
  | nil => simp [allocate]
  | cons e rest ih =>
    simp only [allocate]
    split_ifs <;> simp [ih]

/-- The correction pass rewrites only the `power` fields: the underlying
plants, in order, are unchanged. -/
theorem correct_map_plant (r : ℚ) (l : List Entry) :
    (correct r l).2.map Entry.plant = l.map Entry.plant := by
  induction l generalizing r with
  | nil => simp [correct]
  | cons e rest ih =>
    simp only [correct]
    split_ifs <;> simp [ih]

/-- The dispatch pipeline keeps the plants of the sorted working list,
in sorted order. -/
theorem dispatch_map_plant (load : ℚ) (fuels : Fuels) (ps : List PowerPlant) :
    (dispatch load fuels ps).2.map Entry.plant =
      (merit_sorted fuels ps).map Entry.plant := by
  simp only [dispatch]
  split_ifs with h
  · rw [List.map_reverse, correct_map_plant, List.map_reverse,
      List.reverse_reverse, allocate_map_plant]
  · rw [allocate_map_plant]

/-- C1 counterexample: at scenario 1 with the gas unit listed first, the
result sequence starts with the wind unit — the pairs appear in merit
order, not in the units' original input order. -/
theorem input_order_violated :
    (calculate_production_plan 480 fuelsA [pGasA, pWindA, pTjA]).map
        PowerPlantOutput.name ≠
      [pGasA, pWindA, pTjA].map PowerPlant.name := by
  with_unfolding_all decide

/-- C1 (amended): the result sequence contains exactly one
(identifier, output) pair per input unit — it has the input's length
and its identifiers are a permutation of the input identifiers — but
the pairs appear in merit order (the order of the sorted working list,
which Python's `list.sort` rearranges in place), not in the original
input order. -/
theorem result_order_spec (load : ℚ) (fuels : Fuels) (ps : List PowerPlant) :
    (calculate_production_plan load fuels ps).map PowerPlantOutput.name =
      (merit_sorted fuels ps).map (fun e => e.plant.name) ∧
    ((calculate_production_plan load fuels ps).map PowerPlantOutput.name).Perm
      (ps.map PowerPlant.name) ∧
    (calculate_production_plan load fuels ps).length = ps.length := by
  have h1 : (calculate_production_plan load fuels ps).map PowerPlantOutput.name
      = (dispatch load fuels ps).2.map (fun e => e.plant.name) := by
    simp [calculate_production_plan, List.map_map, Function.comp]
  have h2 : (dispatch load fuels ps).2.map (fun e => e.plant.name)
      = (merit_sorted fuels ps).map (fun e => e.plant.name) := by
    have h := congrArg (List.map PowerPlant.name) (dispatch_map_plant load fuels ps)
    simpa [List.map_map, Function.comp] using h
  have h3 : (merit_sorted fuels ps).map (fun e => e.plant.name) =
      ((build_entries fuels ps).map (fun e => e.plant.name)) →
      True := fun _ => trivial
  refine ⟨h1.trans h2, ?_, ?_⟩
  · rw [h1.trans h2]
    have hperm : ((merit_sorted fuels ps).map (fun e => e.plant.name)).Perm
        ((build_entries fuels ps).map (fun e => e.plant.name)) :=
      (List.perm_insertionSort meritR (build_entries fuels ps)).map _
    have hbuild : (build_entries fuels ps).map (fun e => e.plant.name) =
        ps.map PowerPlant.name := by
      simp [build_entries, List.map_map, Function.comp]
    exact hbuild ▸ hperm
  · have hlen := congrArg List.length (dispatch_map_plant load fuels ps)
    simp only [List.length_map] at hlen
    simp [calculate_production_plan, hlen, merit_sorted,
      List.length_insertionSort, build_entries]

/-- C8: the merit ranking is a total, transitive order on working-list
entries (ascending cost, ties broken by descending effective
capacity); the sorted working list is sorted under it and is a
permutation of the built list; the sort is stable (ordered pairs of
the input survive in the output); and of two entries with equal cost,
the one with strictly larger effective capacity strictly precedes the
other. Determinism holds by construction: the sort is a pure
function of its input. -/
theorem merit_order_spec (fuels : Fuels) (ps : List PowerPlant) :
    (∀ a b : Entry, meritR a b ∨ meritR b a) ∧
    (∀ a b c : Entry, meritR a b → meritR b c → meritR a c) ∧
    List.Sorted meritR (merit_sorted fuels ps) ∧
    (merit_sorted fuels ps).Perm (build_entries fuels ps) ∧
    (∀ a b : Entry, meritR a b → List.Sublist [a, b] (build_entries fuels ps) →
      List.Sublist [a, b] (merit_sorted fuels ps)) ∧
    (∀ a b : Entry, a.cost = b.cost → b.actual_pmax < a.actual_pmax →
      meritR a b ∧ ¬ meritR b a) := by
  refine ⟨meritR_total, meritR_trans,
    List.sorted_insertionSort meritR (build_entries fuels ps),
    List.perm_insertionSort meritR (build_entries fuels ps), ?_, ?_⟩
  · intro a b hab hsub
    exact List.pair_sublist_insertionSort hab hsub
  · intro a b hc hp
    constructor
    · rw [meritR_iff]
      exact Or.inr ⟨hc, le_of_lt hp⟩
    · rw [meritR_iff]
      rintro (h | ⟨-, h2⟩)
      · rw [hc] at h
        rw [Cost.lt_irrefl] at h
        exact absurd h (by simp)
      · linarith

/-- Witness for C8: totality, transitivity, stability and the
equal-cost tie-break at concrete entries. -/
theorem merit_order_spec_witness :
    (meritR eZero eGasB ∨ meritR eGasB eZero) ∧
    meritR eZero eZero ∧
    List.Sublist [eZero, eGasB] (merit_sorted fuelsA [pWindA, pGasA]) ∧
    (meritR eHi eLo ∧ ¬ meritR eLo eHi) := by
  have hb : build_entries fuelsA [pWindA, pGasA] = [eZero, eGasB] := by
    with_unfolding_all decide
  refine ⟨?_, ?_, ?_, ?_⟩
  · exact (merit_order_spec fuelsA []).1 eZero eGasB
  · exact (merit_order_spec fuelsA []).2.1 eZero eZero eZero
      (by with_unfolding_all decide) (by with_unfolding_all decide)
  · exact (merit_order_spec fuelsA [pWindA, pGasA]).2.2.2.2.1 eZero eGasB
      (by with_unfolding_all decide) (hb ▸ List.Sublist.refl _)
  · exact (merit_order_spec fuelsA []).2.2.2.2.2 eHi eLo rfl
      (by with_unfolding_all decide)

/-! ### Step equations for the allocator and the corrector -/

theorem allocate_cons_stop {r : ℚ} {e : Entry} {rest : List Entry}
    (h1 : r ≤ 1/10) :
    allocate r (e :: rest) = (r, e :: rest) := by
  simp only [allocate]
  rw [if_pos h1]

theorem allocate_cons_skip {r : ℚ} {e : Entry} {rest : List Entry}
    (h1 : ¬ r ≤ 1/10) (h2 : e.actual_pmax < 1/10) :
    allocate r (e :: rest) = ((allocate r rest).1, e :: (allocate r rest).2) := by
  simp only [allocate]
  rw [if_neg h1, if_pos h2]

theorem allocate_cons_take {r : ℚ} {e : Entry} {rest : List Entry}
    (h1 : ¬ r ≤ 1/10) (h2 : ¬ e.actual_pmax < 1/10) (h3 : e.plant.pmin ≤ r) :
    allocate r (e :: rest) =
      ((allocate (r - min r e.actual_pmax) rest).1,
        { e with power := min r e.actual_pmax }
          :: (allocate (r - min r e.actual_pmax) rest).2) := by
  simp only [allocate]
  rw [if_neg h1, if_neg h2, if_pos h3]

theorem allocate_cons_flex {r : ℚ} {e : Entry} {rest : List Entry}
    (h1 : ¬ r ≤ 1/10) (h2 : ¬ e.actual_pmax < 1/10) (h3 : ¬ e.plant.pmin ≤ r)
    (h4 : 0 < r ∧ e.plant.pmin = 0) :
    allocate r (e :: rest) =
      ((allocate (r - min r e.actual_pmax) rest).1,
        { e with power := min r e.actual_pmax }
          :: (allocate (r - min r e.actual_pmax) rest).2) := by
  simp only [allocate]
  rw [if_neg h1, if_neg h2, if_neg h3, if_pos h4]

theorem allocate_cons_force {r : ℚ} {e : Entry} {rest : List Entry}
    (h1 : ¬ r ≤ 1/10) (h2 : ¬ e.actual_pmax < 1/10) (h3 : ¬ e.plant.pmin ≤ r)
    (h4 : ¬ (0 < r ∧ e.plant.pmin = 0))
    (h5 : 0 < r ∧ e.plant.pmin ≤ e.actual_pmax) :
    allocate r (e :: rest) =
      ((allocate (r - e.plant.pmin) rest).1,
        { e with power := e.plant.pmin }
          :: (allocate (r - e.plant.pmin) rest).2) := by
  simp only [allocate]
  rw [if_neg h1, if_neg h2, if_neg h3, if_neg h4, if_pos h5]

theorem allocate_cons_pass {r : ℚ} {e : Entry} {rest : List Entry}
    (h1 : ¬ r ≤ 1/10) (h2 : ¬ e.actual_pmax < 1/10) (h3 : ¬ e.plant.pmin ≤ r)
    (h4 : ¬ (0 < r ∧ e.plant.pmin = 0))
    (h5 : ¬ (0 < r ∧ e.plant.pmin ≤ e.actual_pmax)) :
    allocate r (e :: rest) = ((allocate r rest).1, e :: (allocate r rest).2) := by
  simp only [allocate]
  rw [if_neg h1, if_neg h2, if_neg h3, if_neg h4, if_neg h5]

theorem correct_cons_noalloc {r : ℚ} {e : Entry} {rest : List Entry}
    (h1 : ¬ 0 < e.power) :
    correct r (e :: rest) = ((correct r rest).1, e :: (correct r rest).2) := by
  simp only [correct]
  rw [if_neg h1]

theorem correct_cons_retract {r : ℚ} {e : Entry} {rest : List Entry}
    (h1 : 0 < e.power) (h2 : e.plant.pmin ≤ e.power - |r|) :
    correct r (e :: rest) = (0, { e with power := e.power - |r| } :: rest) := by
  simp only [correct]
  rw [if_pos h1, if_pos h2]

theorem correct_cons_flex_stop {r : ℚ} {e : Entry} {rest : List Entry}
    (h1 : 0 < e.power) (h2 : ¬ e.plant.pmin ≤ e.power - |r|)
    (h3 : e.plant.pmin = 0) (h4 : abs (r + min e.power |r|) < 1/10) :
    correct r (e :: rest) =
      (r + min e.power |r|,
        { e with power := e.power - min e.power |r| } :: rest) := by
  simp only [correct]
  rw [if_pos h1, if_neg h2, if_pos h3, if_pos h4]

theorem correct_cons_flex_go {r : ℚ} {e : Entry} {rest : List Entry}
    (h1 : 0 < e.power) (h2 : ¬ e.plant.pmin ≤ e.power - |r|)
    (h3 : e.plant.pmin = 0) (h4 : ¬ abs (r + min e.power |r|) < 1/10) :
    correct r (e :: rest) =
      ((correct (r + min e.power |r|) rest).1,
        { e with power := e.power - min e.power |r| }
          :: (correct (r + min e.power |r|) rest).2) := by
  simp only [correct]
  rw [if_pos h1, if_neg h2, if_pos h3, if_neg h4]

theorem correct_cons_floor {r : ℚ} {e : Entry} {rest : List Entry}
    (h1 : 0 < e.power) (h2 : ¬ e.plant.pmin ≤ e.power - |r|)
    (h3 : e.plant.pmin ≠ 0) :
    correct r (e :: rest) = ((correct r rest).1, e :: (correct r rest).2) := by
  simp only [correct]
  rw [if_pos h1, if_neg h2, if_neg h3]

/-! ### Residual and allocation-sum lemmas -/

theorem usableCap_nonneg (l : List Entry) : 0 ≤ usableCap l := by
  unfold usableCap
  apply List.sum_nonneg
  intro x hx
  simp only [List.mem_map] at hx
  obtain ⟨e, he, rfl⟩ := hx
  have h := List.of_mem_filter he
  simp only [decide_eq_true_eq] at h
  linarith

theorem usableCap_cons_of_lt {e : Entry} (h : e.actual_pmax < 1/10)
    (l : List Entry) : usableCap (e :: l) = usableCap l := by
  unfold usableCap
  rw [List.filter_cons,
    if_neg (by simp only [decide_eq_true_eq]; exact not_le.2 h)]

theorem usableCap_cons_of_le {e : Entry} (h : 1/10 ≤ e.actual_pmax)
    (l : List Entry) : usableCap (e :: l) = e.actual_pmax + usableCap l := by
  unfold usableCap
  rw [List.filter_cons,
    if_pos (by simp only [decide_eq_true_eq]; exact h)]
  rw [List.map_cons, List.sum_cons]

theorem usableCap_perm {l₁ l₂ : List Entry} (h : l₁.Perm l₂) :
    usableCap l₁ = usableCap l₂ :=
  ((h.filter _).map _).sum_eq

/-- With no minimum-output floors, the allocator's residual stays
nonnegative and is either within tolerance or exactly the initial load
minus the total usable capacity. -/
theorem allocate_pmin_zero (r : ℚ) (l : List Entry) (h0 : 0 ≤ r)
    (hp : ∀ e ∈ l, e.plant.pmin = 0) :
    0 ≤ (allocate r l).1 ∧
      ((allocate r l).1 ≤ 1/10 ∨ (allocate r l).1 = r - usableCap l) := by
  induction l generalizing r with
  | nil =>
    refine ⟨by simpa [allocate] using h0, Or.inr ?_⟩
    simp [allocate, usableCap]
  | cons e rest ih =>
    by_cases h1 : r ≤ 1/10
    · rw [allocate_cons_stop h1]
      exact ⟨h0, Or.inl h1⟩
    · have hr : 1/10 < r := not_le.1 h1
      have hptail : ∀ x ∈ rest, x.plant.pmin = 0 :=
        fun x hx => hp x (List.mem_cons_of_mem _ hx)
      by_cases h2 : e.actual_pmax < 1/10
      · rw [allocate_cons_skip h1 h2]
        obtain ⟨ha, hb⟩ := ih r h0 hptail
        refine ⟨ha, ?_⟩
        rcases hb with hb | hb
        · exact Or.inl hb
        · exact Or.inr (by rw [hb, usableCap_cons_of_lt h2])
      · have hple : e.plant.pmin ≤ r := by
          rw [hp e (List.mem_cons_self _ _)]
          linarith
        rw [allocate_cons_take h1 h2 hple]
        have hsub0 : 0 ≤ r - min r e.actual_pmax :=
          sub_nonneg.2 (min_le_left _ _)
        obtain ⟨ha, hb⟩ := ih (r - min r e.actual_pmax) hsub0 hptail
        refine ⟨ha, ?_⟩
        rcases hb with hb | hb
        · exact Or.inl hb
        · rcases le_total r e.actual_pmax with hle | hle
          · left
            have hmr : min r e.actual_pmax = r := min_eq_left hle
            have hle0 : (allocate (r - min r e.actual_pmax) rest).1 ≤ 0 := by
              rw [hb, hmr]
              have := usableCap_nonneg rest
              linarith
            linarith
          · right
            have hmc : min r e.actual_pmax = e.actual_pmax := min_eq_right hle
            rw [hb, hmc, usableCap_cons_of_le (not_lt.1 h2)]
            ring

/-- When every entry starts with zero allocation, the total allocated
power equals the load consumed: initial minus final residual. -/
theorem allocate_sum (r : ℚ) (l : List Entry)
    (hz : ∀ e ∈ l, e.power = 0) :
    (((allocate r l).2).map Entry.power).sum = r - (allocate r l).1 := by
  induction l generalizing r with
  | nil => simp [allocate]
  | cons e rest ih =>
    have hez : e.power = 0 := hz e (List.mem_cons_self _ _)
    have hztail : ∀ x ∈ rest, x.power = 0 :=
      fun x hx => hz x (List.mem_cons_of_mem _ hx)
    have hsum0 : (rest.map Entry.power).sum = 0 := by
      apply List.sum_eq_zero
      intro x hx
      simp only [List.mem_map] at hx
      obtain ⟨y, hy, rfl⟩ := hx
      exact hztail y hy
    by_cases h1 : r ≤ 1/10
    · rw [allocate_cons_stop h1]
      simp [hez, hsum0]
    · by_cases h2 : e.actual_pmax < 1/10
      · rw [allocate_cons_skip h1 h2]
        simp only [List.map_cons, List.sum_cons, hez]
        rw [ih r hztail]
        ring
      · by_cases h3 : e.plant.pmin ≤ r
        · rw [allocate_cons_take h1 h2 h3]
          simp only [List.map_cons, List.sum_cons]
          rw [ih _ hztail]
          ring
        · by_cases h4 : 0 < r ∧ e.plant.pmin = 0
          · rw [allocate_cons_flex h1 h2 h3 h4]
            simp only [List.map_cons, List.sum_cons]
            rw [ih _ hztail]
            ring
          · by_cases h5 : 0 < r ∧ e.plant.pmin ≤ e.actual_pmax
            · rw [allocate_cons_force h1 h2 h3 h4 h5]
              simp only [List.map_cons, List.sum_cons]
              rw [ih _ hztail]
              ring
            · rw [allocate_cons_pass h1 h2 h3 h4 h5]
              simp only [List.map_cons, List.sum_cons, hez]
              rw [ih r hztail]
              ring

/-! ### Rounding error bounds -/

theorem roundHalfEven_err (x : ℚ) : |((roundHalfEven x : ℤ) : ℚ) - x| ≤ 1/2 := by
  have hfl : (⌊x⌋ : ℚ) ≤ x := Int.floor_le x
  have hfu : x < (⌊x⌋ : ℚ) + 1 := Int.lt_floor_add_one x
  unfold roundHalfEven
  split_ifs with hlt hgt hev
  · rw [abs_of_nonpos (by linarith)]
    linarith
  · push_cast
    rw [abs_of_nonneg (by linarith)]
    linarith
  · have hfr : x - (⌊x⌋ : ℚ) = 1/2 := le_antisymm (not_lt.1 hgt) (not_lt.1 hlt)
    rw [abs_of_nonpos (by linarith)]
    linarith
  · have hfr : x - (⌊x⌋ : ℚ) = 1/2 := le_antisymm (not_lt.1 hgt) (not_lt.1 hlt)
    push_cast
    rw [abs_of_nonneg (by linarith)]
    linarith

theorem round1_err (q : ℚ) : |round1 q - q| ≤ 1/20 := by
  have h := roundHalfEven_err (10 * q)
  rw [round1]
  have heq : ((roundHalfEven (10 * q) : ℤ) : ℚ) / 10 - q =
      (((roundHalfEven (10 * q) : ℤ) : ℚ) - 10 * q) / 10 := by ring
  rw [heq, abs_div, abs_of_nonneg (by norm_num : (0:ℚ) ≤ 10)]
  linarith

theorem round1_sum_err (xs : List ℚ) :
    |(xs.map round1).sum - xs.sum| ≤ (xs.length : ℚ) * (1/20) := by
  induction xs with
  | nil => simp
  | cons x xs ih =>
    simp only [List.map_cons, List.sum_cons, List.length_cons]
    have h1 := round1_err x
    have habs : |round1 x + (xs.map round1).sum - (x + xs.sum)| ≤
        |round1 x - x| + |(xs.map round1).sum - xs.sum| := by
      have : round1 x + (xs.map round1).sum - (x + xs.sum) =
          (round1 x - x) + ((xs.map round1).sum - xs.sum) := by ring
      rw [this]
      exact abs_add _ _
    have hcast : ((xs.length + 1 : ℕ) : ℚ) = (xs.length : ℚ) + 1 := by push_cast; ring
    rw [hcast]
    have := add_le_add h1 ih
    calc |round1 x + (xs.map round1).sum - (x + xs.sum)|
        ≤ |round1 x - x| + |(xs.map round1).sum - xs.sum| := habs
      _ ≤ 1/20 + (xs.length : ℚ) * (1/20) := by linarith
      _ = ((xs.length : ℚ) + 1) * (1/20) := by ring

/-! ### Allocation bound invariants -/

/-- The allocator keeps every entry between zero and its effective
capacity (given entries that start that way and nonnegative floors):
even a force-committed entry sits at its floor, which that branch
checks is under the capacity. -/
theorem allocate_bounds (r : ℚ) (l : List Entry)
    (hb : ∀ e ∈ l, 0 ≤ e.power ∧ e.power ≤ e.actual_pmax)
    (hm : ∀ e ∈ l, 0 ≤ e.plant.pmin) :
    ∀ e ∈ (allocate r l).2, 0 ≤ e.power ∧ e.power ≤ e.actual_pmax := by
  induction l generalizing r with
  | nil =>
    intro e he
    simp [allocate] at he
  | cons e rest ih =>
    have hbtail : ∀ x ∈ rest, 0 ≤ x.power ∧ x.power ≤ x.actual_pmax :=
      fun x hx => hb x (List.mem_cons_of_mem _ hx)
    have hmtail : ∀ x ∈ rest, 0 ≤ x.plant.pmin :=
      fun x hx => hm x (List.mem_cons_of_mem _ hx)
    by_cases h1 : r ≤ 1/10
    · rw [allocate_cons_stop h1]
      exact hb
    · have hr : 1/10 < r := not_le.1 h1
      by_cases h2 : e.actual_pmax < 1/10
      · rw [allocate_cons_skip h1 h2]
        intro x hx
        rcases List.mem_cons.1 hx with rfl | hx
        · exact hb x (List.mem_cons_self _ _)
        · exact ih r hbtail hmtail x hx
      · have hcap : (0:ℚ) ≤ e.actual_pmax := by
          have := not_lt.1 h2
          linarith
        by_cases h3 : e.plant.pmin ≤ r
        · rw [allocate_cons_take h1 h2 h3]
          intro x hx
          rcases List.mem_cons.1 hx with rfl | hx
          · exact ⟨le_min (by linarith) hcap, min_le_right _ _⟩
          · exact ih _ hbtail hmtail x hx
        · by_cases h4 : 0 < r ∧ e.plant.pmin = 0
          · rw [allocate_cons_flex h1 h2 h3 h4]
            intro x hx
            rcases List.mem_cons.1 hx with rfl | hx
            · exact ⟨le_min (by linarith) hcap, min_le_right _ _⟩
            · exact ih _ hbtail hmtail x hx
          · by_cases h5 : 0 < r ∧ e.plant.pmin ≤ e.actual_pmax
            · rw [allocate_cons_force h1 h2 h3 h4 h5]
              intro x hx
              rcases List.mem_cons.1 hx with rfl | hx
              · exact ⟨hm e (List.mem_cons_self _ _), h5.2⟩
              · exact ih _ hbtail hmtail x hx
            · rw [allocate_cons_pass h1 h2 h3 h4 h5]
              intro x hx
              rcases List.mem_cons.1 hx with rfl | hx
              · exact hb x (List.mem_cons_self _ _)
              · exact ih r hbtail hmtail x hx

/-- The corrector only lowers allocations, never below zero, so the
bound invariant survives the correction pass. -/
theorem correct_bounds (r : ℚ) (l : List Entry)
    (hb : ∀ e ∈ l, 0 ≤ e.power ∧ e.power ≤ e.actual_pmax)
    (hm : ∀ e ∈ l, 0 ≤ e.plant.pmin) :
    ∀ e ∈ (correct r l).2, 0 ≤ e.power ∧ e.power ≤ e.actual_pmax := by
  induction l generalizing r with
  | nil =>
    intro e he
    simp [correct] at he
  | cons e rest ih =>
    have hbtail : ∀ x ∈ rest, 0 ≤ x.power ∧ x.power ≤ x.actual_pmax :=
      fun x hx => hb x (List.mem_cons_of_mem _ hx)
    have hmtail : ∀ x ∈ rest, 0 ≤ x.plant.pmin :=
      fun x hx => hm x (List.mem_cons_of_mem _ hx)
    have hbe := hb e (List.mem_cons_self _ _)
    have hme := hm e (List.mem_cons_self _ _)
    by_cases h1 : 0 < e.power
    · by_cases h2 : e.plant.pmin ≤ e.power - |r|
      · rw [correct_cons_retract h1 h2]
        intro x hx
        rcases List.mem_cons.1 hx with rfl | hx
        · constructor
          · show (0:ℚ) ≤ e.power - |r|
            linarith
          · show e.power - |r| ≤ e.actual_pmax
            have habs : (0:ℚ) ≤ |r| := abs_nonneg r
            linarith [hbe.2]
        · exact hb x (List.mem_cons_of_mem _ hx)
      · by_cases h3 : e.plant.pmin = 0
        · have hmin0 : (0:ℚ) ≤ min e.power |r| :=
            le_min (le_of_lt h1) (abs_nonneg r)
          have hminp : min e.power |r| ≤ e.power := min_le_left _ _
          by_cases h4 : abs (r + min e.power |r|) < 1/10
          · rw [correct_cons_flex_stop h1 h2 h3 h4]
            intro x hx
            rcases List.mem_cons.1 hx with rfl | hx
            · constructor
              · show (0:ℚ) ≤ e.power - min e.power |r|
                linarith
              · show e.power - min e.power |r| ≤ e.actual_pmax
                linarith [hbe.2]
            · exact hb x (List.mem_cons_of_mem _ hx)
          · rw [correct_cons_flex_go h1 h2 h3 h4]
            intro x hx
            rcases List.mem_cons.1 hx with rfl | hx
            · constructor
              · show (0:ℚ) ≤ e.power - min e.power |r|
                linarith
              · show e.power - min e.power |r| ≤ e.actual_pmax
                linarith [hbe.2]
            · exact ih _ hbtail hmtail x hx
        · rw [correct_cons_floor h1 h2 h3]
          intro x hx
          rcases List.mem_cons.1 hx with rfl | hx
          · exact hbe
          · exact ih r hbtail hmtail x hx
    · rw [correct_cons_noalloc h1]
      intro x hx
      rcases List.mem_cons.1 hx with rfl | hx
      · exact hbe
      · exact ih r hbtail hmtail x hx

/-- Under the data-model constraints (nonnegative wind percentage and
`0 ≤ pmin ≤ pmax`), every built entry starts inside its bounds with a
nonnegative floor. -/
theorem build_entries_bounds (fuels : Fuels) (ps : List PowerPlant)
    (hw : 0 ≤ fuels.wind_percent)
    (hpm : ∀ p ∈ ps, 0 ≤ p.pmin ∧ p.pmin ≤ p.pmax) :
    ∀ e ∈ build_entries fuels ps,
      (0 ≤ e.power ∧ e.power ≤ e.actual_pmax) ∧ 0 ≤ e.plant.pmin := by
  intro e he
  simp only [build_entries, List.mem_map] at he
  obtain ⟨p, hp, rfl⟩ := he
  obtain ⟨h1, h2⟩ := hpm p hp
  have hcap : 0 ≤ calculate_actual_pmax p fuels := by
    unfold calculate_actual_pmax
    split_ifs
    · exact mul_nonneg (le_trans h1 h2) (div_nonneg hw (by norm_num))
    · exact le_trans h1 h2
  exact ⟨⟨le_refl 0, hcap⟩, h1⟩

/-- C2 counterexample: load `0.75` over three quarter-MW zero-floor wind
units is feasible (capacity `0.75` suffices, no floors), yet each unit
is allocated `0.25`, which rounds to `0.2`, and the rounded plan sums
to `0.6` — `0.15` away from the load, beyond the `0.1` tolerance. -/
theorem rounded_sum_deviates :
    Feasible (3/4) fuelsC [pW1, pW2, pW3] ∧
    1/10 < |(((calculate_production_plan (3/4) fuelsC
        [pW1, pW2, pW3]).map PowerPlantOutput.p).sum) - 3/4| := by
  constructor
  · unfold Feasible
    refine ⟨by norm_num, ?_, ?_⟩
    · with_unfolding_all decide
    · with_unfolding_all decide
  · with_unfolding_all decide

/-- C2 (amended): for every feasible scenario — nonnegative load, no
minimum-output floors, aggregate usable effective capacity at least
the load — the sum of the (unrounded) allocations lies within `0.1`
of the requested load; the sum of the rounded allocations may drift
a further `0.05` per unit, so it is only within
`0.1 + n × 0.05` of the load. -/
theorem feasible_load_within_tolerance (load : ℚ) (fuels : Fuels)
    (ps : List PowerPlant) (h : Feasible load fuels ps) :
    |(((dispatch load fuels ps).2).map Entry.power).sum - load| ≤ 1/10 ∧
    |(((calculate_production_plan load fuels ps).map
        PowerPlantOutput.p).sum) - load| ≤ 1/10 + (ps.length : ℚ) * (1/20) := by
  obtain ⟨h0, hpz, hcap⟩ := h
  have hmem : ∀ e ∈ merit_sorted fuels ps, e.plant.pmin = 0 ∧ e.power = 0 := by
    intro e he
    have he' : e ∈ build_entries fuels ps :=
      (List.perm_insertionSort meritR _).mem_iff.1 he
    simp only [build_entries, List.mem_map] at he'
    obtain ⟨p, hp, rfl⟩ := he'
    exact ⟨hpz p hp, rfl⟩
  have husable : usableCap (merit_sorted fuels ps) =
      usableCap (build_entries fuels ps) :=
    usableCap_perm (List.perm_insertionSort meritR _)
  obtain ⟨hr0, hres⟩ := allocate_pmin_zero load (merit_sorted fuels ps) h0
    (fun e he => (hmem e he).1)
  have hr1 : (allocate load (merit_sorted fuels ps)).1 ≤ 1/10 := by
    rcases hres with hb | hb
    · exact hb
    · rw [hb, husable]
      linarith
  have hnotrig : ¬ (allocate load (merit_sorted fuels ps)).1 < -(1/10) := by
    linarith
  have hdisp : dispatch load fuels ps = allocate load (merit_sorted fuels ps) := by
    simp only [dispatch]
    rw [if_neg hnotrig]
  have hsum := allocate_sum load (merit_sorted fuels ps)
    (fun e he => (hmem e he).2)
  have hfirst : |(((dispatch load fuels ps).2).map Entry.power).sum - load| ≤ 1/10 := by
    rw [hdisp, hsum]
    have heq : load - (allocate load (merit_sorted fuels ps)).1 - load =
        -(allocate load (merit_sorted fuels ps)).1 := by ring
    rw [heq, abs_neg, abs_of_nonneg hr0]
    exact hr1
  refine ⟨hfirst, ?_⟩
  have hplan : (calculate_production_plan load fuels ps).map PowerPlantOutput.p
      = ((dispatch load fuels ps).2.map Entry.power).map round1 := by
    simp [calculate_production_plan, List.map_map, Function.comp]
  have hlen : ((dispatch load fuels ps).2.map Entry.power).length = ps.length := by
    have h1 := congrArg List.length (dispatch_map_plant load fuels ps)
    simp only [List.length_map] at h1
    simp [h1, merit_sorted, List.length_insertionSort, build_entries]
  have herr := round1_sum_err ((dispatch load fuels ps).2.map Entry.power)
  rw [hlen] at herr
  rw [hplan]
  calc |(((dispatch load fuels ps).2.map Entry.power).map round1).sum - load|
      = |((((dispatch load fuels ps).2.map Entry.power).map round1).sum -
          ((dispatch load fuels ps).2.map Entry.power).sum) +
          (((dispatch load fuels ps).2.map Entry.power).sum - load)| := by
        ring_nf
    _ ≤ |(((dispatch load fuels ps).2.map Entry.power).map round1).sum -
          ((dispatch load fuels ps).2.map Entry.power).sum| +
          |((dispatch load fuels ps).2.map Entry.power).sum - load| :=
        abs_add _ _
    _ ≤ (ps.length : ℚ) * (1/20) + 1/10 := add_le_add herr hfirst
    _ = 1/10 + (ps.length : ℚ) * (1/20) := by ring

/-- Witness for C2 at a concrete feasible request: load 30 against the
scenario-1 wind unit (effective capacity 90). -/
theorem feasible_load_witness :
    Feasible 30 fuelsA [pWindA] ∧
    (|(((dispatch 30 fuelsA [pWindA]).2).map Entry.power).sum - 30| ≤ 1/10 ∧
      |(((calculate_production_plan 30 fuelsA [pWindA]).map
          PowerPlantOutput.p).sum) - 30| ≤
        1/10 + (([pWindA] : List PowerPlant).length : ℚ) * (1/20)) := by
  have hF : Feasible 30 fuelsA [pWindA] := by
    unfold Feasible
    refine ⟨by norm_num, ?_, ?_⟩
    · with_unfolding_all decide
    · with_unfolding_all decide
  exact ⟨hF, feasible_load_within_tolerance 30 fuelsA [pWindA] hF⟩

/-- C9: under the data-model constraints (wind percentage and floors
nonnegative, floors below capacities), every entry of the working list
after allocation and after the full dispatch satisfies
`0 ≤ power ≤ effective capacity` or sits exactly at its floor (the
force-commit branch in fact guarantees the floor is under the
capacity, so the first disjunct always holds); and any residual
deviation beyond tolerance is surfaced: a successful response implies
the rounded total is within `0.1` of the load. -/
theorem allocation_bounds_spec (load : ℚ) (fuels : Fuels)
    (ps : List PowerPlant) (hw : 0 ≤ fuels.wind_percent)
    (hpm : ∀ p ∈ ps, 0 ≤ p.pmin ∧ p.pmin ≤ p.pmax) :
    (∀ e ∈ (allocate load (merit_sorted fuels ps)).2,
      (0 ≤ e.power ∧ e.power ≤ e.actual_pmax) ∨ e.power = e.plant.pmin) ∧
    (∀ e ∈ (dispatch load fuels ps).2,
      (0 ≤ e.power ∧ e.power ≤ e.actual_pmax) ∨ e.power = e.plant.pmin) ∧
    (∀ plan, production_plan ⟨load, fuels, ps⟩ = ApiResult.ok plan →
      |((plan.map PowerPlantOutput.p).sum) - load| ≤ 1/10) := by
  have hsb : ∀ e ∈ merit_sorted fuels ps,
      (0 ≤ e.power ∧ e.power ≤ e.actual_pmax) := by
    intro e he
    exact (build_entries_bounds fuels ps hw hpm e
      ((List.perm_insertionSort meritR _).mem_iff.1 he)).1
  have hsm : ∀ e ∈ merit_sorted fuels ps, 0 ≤ e.plant.pmin := by
    intro e he
    exact (build_entries_bounds fuels ps hw hpm e
      ((List.perm_insertionSort meritR _).mem_iff.1 he)).2
  have halloc := allocate_bounds load (merit_sorted fuels ps) hsb hsm
  have hallocm : ∀ x ∈ (allocate load (merit_sorted fuels ps)).2,
      0 ≤ x.plant.pmin := by
    intro x hx
    have hmm : x.plant ∈ (merit_sorted fuels ps).map Entry.plant := by
      rw [← allocate_map_plant load]
      exact List.mem_map_of_mem _ hx
    simp only [List.mem_map] at hmm
    obtain ⟨y, hy, hyx⟩ := hmm
    rw [← hyx]
    exact hsm y hy
  refine ⟨fun e he => Or.inl (halloc e he), ?_, ?_⟩
  · intro e he
    left
    revert he
    simp only [dispatch]
    split_ifs with h
    · intro he
      rw [List.mem_reverse] at he
      refine correct_bounds _ _ ?_ ?_ e he
      · intro x hx
        exact halloc x (List.mem_reverse.1 hx)
      · intro x hx
        exact hallocm x (List.mem_reverse.1 hx)
    · intro he
      exact halloc e he
  · intro plan hok
    simpa using plan_ok_within_tolerance ⟨load, fuels, ps⟩ plan hok

/-- Witness for C9: the dispatched wind entry of a load-20 request
satisfies the bound invariant. -/
theorem allocation_bounds_witness :
    (0 ≤ eWindA.power ∧ eWindA.power ≤ eWindA.actual_pmax) ∨
      eWindA.power = eWindA.plant.pmin := by
  exact (allocation_bounds_spec 20 fuelsA [pWindA]
      (by with_unfolding_all decide) (by with_unfolding_all decide)).2.1
    eWindA (by with_unfolding_all decide)

end PowerPlan
